import Mathlib

/-!
Verification of the pixel-paint server (`server.js`).

The server keeps three pieces of mutable state: `userList` (the authoritative
connected-user array), `tempUserList` (the provisional array collected during a
keep-alive sweep) and `canvasState` (the append-only paint history).  User
records are JavaScript arrays such as `["5", "red"]` or `[1, "black"]`, stored
by reference: the same record object can sit in both lists, and after
`userList = tempUserList.sort(userSortFunc)` the two variables point at the
same array.  To capture this reference semantics the model keeps a heap `recs`
of record objects addressed by index; the two lists hold addresses, and an
`arraysAliased` flag records when both variables denote one array.
-/

namespace PixelPaint

/-- A JavaScript value as it appears in a user-record array: a number, a
string, or `undefined` (from reading past the end of an array). -/
inductive JSVal where
  | num (n : Int)
  | str (s : String)
  | undef
deriving DecidableEq, Repr

/-- Digits to a natural number, most significant first. -/
def digitsVal (cs : List Char) : Nat :=
  cs.foldl (fun acc c => acc * 10 + (c.toNat - 48)) 0

/-- Whitespace skipped by `parseInt` / `ToNumber`. -/
def isWs (c : Char) : Bool :=
  c = ' ' || c = '\t' || c = '\n' || c = '\r'

/-- JavaScript `parseInt` on a string, restricted to the decimal forms that
occur in this protocol (optional sign, then a maximal run of digits; leading
whitespace skipped; trailing garbage ignored).  `none` models `NaN`. -/
def parseIntStr (s : String) : Option Int :=
  match s.toList.dropWhile isWs with
  | '-' :: rest =>
    let ds := rest.takeWhile Char.isDigit
    if ds.isEmpty then none else some (-(digitsVal ds : Int))
  | '+' :: rest =>
    let ds := rest.takeWhile Char.isDigit
    if ds.isEmpty then none else some (digitsVal ds)
  | cs =>
    let ds := cs.takeWhile Char.isDigit
    if ds.isEmpty then none else some (digitsVal ds)

/-- JavaScript `ToNumber` on a string (used by the `a[0]-b[0]` sort
comparator), restricted to optionally signed decimal integers: the whole
trimmed string must be numeric, and the empty string converts to `0`.
`none` models `NaN`. -/
def toNumberStr (s : String) : Option Int :=
  match (s.toList.dropWhile isWs).reverse.dropWhile isWs |>.reverse with
  | [] => some 0
  | '-' :: rest => if rest ≠ [] && rest.all Char.isDigit
      then some (-(digitsVal rest : Int)) else none
  | '+' :: rest => if rest ≠ [] && rest.all Char.isDigit
      then some (digitsVal rest) else none
  | cs => if cs.all Char.isDigit then some (digitsVal cs) else none

/-- `parseInt` applied to a possibly-absent array element. -/
def piV : Option JSVal → Option Int
  | some (JSVal.num n) => some n
  | some (JSVal.str s) => parseIntStr s
  | _ => none

/-- `ToNumber` applied to a possibly-absent array element. -/
def toNumV : Option JSVal → Option Int
  | some (JSVal.num n) => some n
  | some (JSVal.str s) => toNumberStr s
  | _ => none

/-- Element rendering used by `Array.prototype.join`: numbers print in
decimal, `undefined` prints as the empty string. -/
def valToStr : JSVal → String
  | JSVal.num n => toString n
  | JSVal.str s => s
  | JSVal.undef => ""

/-- JavaScript truthiness test for the `broadcast` data argument. -/
def jsFalsy : JSVal → Bool
  | JSVal.num n => n = 0
  | JSVal.str s => s = ""
  | JSVal.undef => true

/-- Split a character list at every occurrence of `c`
(JavaScript `String.prototype.split` with a one-character separator). -/
def splitChar (c : Char) : List Char → List (List Char)
  | [] => [[]]
  | x :: xs =>
    match splitChar c xs with
    | [] => if x = c then [[], []] else [[x]]
    | y :: ys => if x = c then [] :: y :: ys else (x :: y) :: ys

/-- JavaScript `s.split(c)` for a one-character separator. -/
def jsSplit (s : String) (c : Char) : List String :=
  (splitChar c s.toList).map (fun l => String.mk l)

/-- JavaScript array-element assignment `r[i] = v` (extends the array with
`undefined` holes when `i` is past the end). -/
def jsSetAt (r : List JSVal) (i : Nat) (v : JSVal) : List JSVal :=
  if i < r.length then r.set i v
  else r ++ List.replicate (i - r.length) JSVal.undef ++ [v]

/-- JavaScript read `l[i]` on an array of strings: a string element, or
`undefined` past the end. -/
def jsIdx (l : List String) (i : Nat) : JSVal :=
  match l.get? i with
  | some x => JSVal.str x
  | none => JSVal.undef

/-- An inbound websocket message after `JSON.parse`: the `messageType` tag and
the string payload in `data`. -/
structure InMsg where
  messageType : String
  data : String
deriving DecidableEq, Repr

/-- An observable outbound effect of the server: a `ws.send` to the message's
sender, a `broadcast` to every connection, or the malformed-message error
report (which echoes the offending message). -/
inductive Out where
  | send (mt : String) (d : Option JSVal)
  | bcast (mt : String) (d : Option JSVal)
  | err (orig : InMsg)
deriving DecidableEq, Repr

/-- Model of `broadcast(type, data)`: a falsy `data` argument (in particular
the empty string) makes the server send the envelope without a data field. -/
def broadcastOut (mt : String) (d : Option JSVal) : Out :=
  match d with
  | some v => if jsFalsy v then Out.bcast mt none else Out.bcast mt (some v)
  | none => Out.bcast mt none

/-- The server's mutable state.  `recs` is the heap of user-record array
objects (address = index); `userList` and `tempUserList` hold addresses into
it.  `arraysAliased` is true exactly when the two variables reference the same
array object (which happens after `userList = tempUserList.sort(...)` and
lasts until the next sweep rebinds `tempUserList` to a fresh array). -/
structure ServerState where
  recs : List (List JSVal)
  userList : List Nat
  tempUserList : List Nat
  arraysAliased : Bool
  canvasState : List String
  userListStale : Bool
deriving DecidableEq, Repr

/-- Initial state: empty lists, distinct empty arrays, not stale. -/
def initState : ServerState :=
  { recs := [], userList := [], tempUserList := [],
    arraysAliased := false, canvasState := [], userListStale := false }

/-- The identity field of the record at heap address `a`, as read by
`parseInt(user[0])`. -/
def recIdP (recs : List (List JSVal)) (a : Nat) : Option Int :=
  piV ((recs.get? a).bind List.head?)

/-- The sort key of the record at `a`, as read by the coercion in the
comparator `a[0]-b[0]` (`ToNumber`). -/
def sKey (recs : List (List JSVal)) (a : Nat) : Option Int :=
  toNumV ((recs.get? a).bind List.head?)

/-- Comparator order of `userSortFunc = (a,b) => a[0]-b[0]`: `a` may stay
before `b` when the comparator value is `≤ 0`; a `NaN` comparator value is
treated as `0` (ECMAScript `SortCompare`), i.e. the pair is left unordered. -/
def userLe (recs : List (List JSVal)) (a b : Nat) : Bool :=
  match sKey recs a, sKey recs b with
  | some x, some y => decide (x ≤ y)
  | _, _ => true

/-- Insert an address into an address list sorted by `userLe`. -/
def uInsert (recs : List (List JSVal)) (x : Nat) : List Nat → List Nat
  | [] => [x]
  | y :: ys => if userLe recs x y then x :: y :: ys else y :: uInsert recs x ys

/-- Model of `array.sort(userSortFunc)` on an array of user records. -/
def uSort (recs : List (List JSVal)) : List Nat → List Nat
  | [] => []
  | x :: xs => uInsert recs x (uSort recs xs)

/-- Model of `userList.join(';')`: each record prints as its elements joined
by `','`, records are joined by `';'`. -/
def joinUsers (recs : List (List JSVal)) (l : List Nat) : String :=
  String.intercalate ";" (l.map (fun a =>
    match recs.get? a with
    | some r => String.intercalate "," (r.map valToStr)
    | none => ""))

/-- Identities (as read by `parseInt`) of the authoritative user list. -/
def authIds (s : ServerState) : List (Option Int) :=
  s.userList.map (recIdP s.recs)

/-- Identities (as read by `parseInt`) of the provisional user list. -/
def tempIds (s : ServerState) : List (Option Int) :=
  s.tempUserList.map (recIdP s.recs)

/-- The authoritative list dereferenced: the visible user records. -/
def authView (s : ServerState) : List (Option (List JSVal)) :=
  s.userList.map (fun a => s.recs.get? a)

/-- Well-formedness kept by every operation: list entries address real heap
records, and when the two variables alias one array the two lists agree. -/
def wfSt (s : ServerState) : Prop :=
  (∀ a ∈ s.userList, a < s.recs.length) ∧
  (∀ a ∈ s.tempUserList, a < s.recs.length) ∧
  (s.arraysAliased = true → s.userList = s.tempUserList)

instance (s : ServerState) : Decidable (wfSt s) := by
  unfold wfSt; infer_instance

/-- One step of the `while(found)` loop of `generateUUID`: try candidates
upward from `cand`, skipping values held (by `parseInt`) in `held`.  The JS
loop has no fuel; `fuel = held.length` suffices by pigeonhole and
`firstFreeAux_spec` proves the result exact. -/
def firstFreeAux : Nat → Int → List (Option Int) → Int
  | 0, cand, _ => cand
  | fuel + 1, cand, held =>
    if some cand ∈ held then firstFreeAux fuel (cand + 1) held else cand

/-- Model of `generateUUID()`: the smallest positive integer `uuid` such that
no `user` in `userList` has `parseInt(user[0]) === uuid`. -/
def generateUUID (s : ServerState) : Int :=
  firstFreeAux s.userList.length 1 (authIds s)

/-- Model of `addUser()`: allocate a UUID, create the record
`[newUUID, "black"]`, push it onto `userList` and `tempUserList`, and sort
`userList`.  When the two variables alias one array the two pushes land in the
same array and the sort is seen through both names. -/
def addUser (s : ServerState) : Int × ServerState :=
  let uuid := generateUUID s
  let addr := s.recs.length
  let recs := s.recs ++ [[JSVal.num uuid, JSVal.str "black"]]
  if s.arraysAliased then
    let arr := uSort recs (s.userList ++ [addr, addr])
    (uuid, { s with recs := recs, userList := arr, tempUserList := arr })
  else
    (uuid, { s with recs := recs,
                    userList := uSort recs (s.userList ++ [addr]),
                    tempUserList := s.tempUserList ++ [addr] })

/-- Model of `tempUserList.push(addr)`: when the two variables alias one
array, the push is seen through `userList` as well. -/
def pushTemp (s : ServerState) (addr : Nat) : ServerState :=
  if s.arraysAliased then
    { s with userList := s.userList ++ [addr],
             tempUserList := s.tempUserList ++ [addr] }
  else { s with tempUserList := s.tempUserList ++ [addr] }

/-- The synchronous part of `sendKeepAlive()`: mark the list stale, broadcast
the ping, and rebind `tempUserList` to a fresh empty array (which ends any
aliasing with `userList`). -/
def sendKeepAliveStart (s : ServerState) : ServerState × List Out :=
  ({ s with userListStale := true, tempUserList := [], arraysAliased := false },
   [broadcastOut "ping" none])

/-- The `setTimeout` callback of `sendKeepAlive()` after the grace period:
`userList = tempUserList.sort(userSortFunc)` (an in-place sort returning the
same array, so both variables now alias it), broadcast the joined list, and
clear the stale flag. -/
def sendKeepAliveEnd (s : ServerState) : ServerState × List Out :=
  let arr := uSort s.recs s.tempUserList
  ({ s with userList := arr, tempUserList := arr,
            arraysAliased := true, userListStale := false },
   [broadcastOut "announceConnectedUsers" (some (JSVal.str (joinUsers s.recs arr)))])

/-- The connection handler: `addUser()` runs first, then its UUID is sent to
the new client as `announceUUID`. -/
def onConnect (s : ServerState) : ServerState × List Out :=
  let (uuid, s1) := addUser s
  (s1, [Out.send "announceUUID" (some (JSVal.num uuid))])

/-- The `for (let data of message.data.split(';'))` loop of the `paint` case:
push each well-formed triple until the first malformed entry, where the loop
breaks with `validMessage = false`.  Returns the pushed prefix and the flag. -/
def paintLoop : List String → List String × Bool
  | [] => ([], true)
  | e :: rest =>
    if (jsSplit e ',').length = 3 then
      let r := paintLoop rest
      (e :: r.1, r.2)
    else ([], false)

/-- Condition of `userList.find(user => parseInt(receivedData[0]) === user[0])`:
a strict equality between a parsed number (`NaN` never matches) and the raw
first element of the record. -/
def acceptPred (recs : List (List JSVal)) (key : Option Int) (a : Nat) : Bool :=
  match key, (recs.get? a).bind List.head? with
  | some n, some (JSVal.num m) => decide (n = m)
  | _, _ => false

/-- Condition of `find(u => parseInt(data[0]) === parseInt(u[0]))` in the
`updateColor` case (`NaN === NaN` is false). -/
def colorPred (recs : List (List JSVal)) (key : Option Int) (a : Nat) : Bool :=
  match key, recIdP recs a with
  | some n, some m => decide (n = m)
  | _, _ => false

/-- Overwrite the record at heap address `a` with its color field set
(`userRef[1] = c`). -/
def setColorAt (recs : List (List JSVal)) (a : Nat) (v : JSVal) :
    List (List JSVal) :=
  match recs.get? a with
  | some r => recs.set a (jsSetAt r 1 v)
  | none => recs

/-- The `ws.on('message')` handler, one inbound message on state `s`.
`none` models an uncaught exception escaping the handler (which kills the
Node process): it occurs exactly where the source dereferences the result of
a failed `find` in the `updateColor` case. -/
def handleMessage (s : ServerState) (m : InMsg) :
    Option (ServerState × List Out) :=
  if m.messageType = "userAccepted" then
    let receivedData := jsSplit m.data ','
    let key := parseIntStr (receivedData.headD "")
    match s.userList.find? (acceptPred s.recs key) with
    | some a =>
      let recs := setColorAt s.recs a (jsIdx receivedData 1)
      let s1 := { s with recs := recs }
      let outs1 :=
        if s.userListStale then []
        else [broadcastOut "announceConnectedUsers"
                (some (JSVal.str (joinUsers recs s.userList)))]
      let outs2 :=
        if s.canvasState.length > 0 then
          [Out.send "paint"
            (some (JSVal.str (String.intercalate ";" s.canvasState)))]
        else []
      some (s1, outs1 ++ outs2)
    | none => some (s, [Out.err m])
  else if m.messageType = "pong" then
    let fields := (jsSplit m.data ',').map JSVal.str
    if piV fields.head? = some (-1) then
      let p := addUser s
      let fields2 := jsSetAt fields 0 (JSVal.num p.1)
      let addr := p.2.recs.length
      let s2 := { p.2 with recs := p.2.recs ++ [fields2] }
      some (pushTemp s2 addr, [Out.send "announceUUID" (some (JSVal.num p.1))])
    else
      let addr := s.recs.length
      let s2 := { s with recs := s.recs ++ [fields] }
      some (pushTemp s2 addr, [])
  else if m.messageType = "paint" then
    let r := paintLoop (jsSplit m.data ';')
    let s1 := { s with canvasState := s.canvasState ++ r.1 }
    if r.2 then some (s1, [broadcastOut "paint" (some (JSVal.str m.data))])
    else some (s1, [Out.err m])
  else if m.messageType = "updateColor" then
    let d := jsSplit m.data ','
    if d.length = 2 then
      let key := parseIntStr (d.headD "")
      if s.userListStale then
        match s.tempUserList.find? (colorPred s.recs key) with
        | some a =>
          some ({ s with recs := setColorAt s.recs a (jsIdx d 1) }, [])
        | none => none
      else
        match s.userList.find? (colorPred s.recs key) with
        | some a =>
          let recs := setColorAt s.recs a (jsIdx d 1)
          some ({ s with recs := recs },
            [broadcastOut "announceConnectedUsers"
              (some (JSVal.str (joinUsers recs s.userList)))])
        | none => none
    else some (s, [Out.err m])
  else some (s, [])

/-- An externally triggered event: a new connection, an inbound message, the
start of a keep-alive sweep (timer tick or a transport close), or the end of
its grace period. -/
inductive Ev where
  | connect
  | msg (m : InMsg)
  | sweepStart
  | sweepEnd
deriving DecidableEq, Repr

/-- Dispatch one event. -/
def step (s : ServerState) : Ev → Option (ServerState × List Out)
  | Ev.connect => some (onConnect s)
  | Ev.msg m => handleMessage s m
  | Ev.sweepStart => some (sendKeepAliveStart s)
  | Ev.sweepEnd => some (sendKeepAliveEnd s)

/-- Run a sequence of events, accumulating outbound effects; `none` as soon
as a step raises. -/
def run (s : ServerState) : List Ev → Option (ServerState × List Out)
  | [] => some (s, [])
  | e :: es =>
    match step s e with
    | none => none
    | some p =>
      match run p.1 es with
      | none => none
      | some q => some (q.1, p.2 ++ q.2)

/-- Well-formedness of one paint entry: exactly three comma-separated
fields. -/
def paintOk (e : String) : Bool :=
  (jsSplit e ',').length = 3

theorem paintLoop_eq (l : List String) :
    paintLoop l = (l.takeWhile paintOk, l.all paintOk) := by
  induction l with
  | nil => rfl
  | cons e rest ih =>
    by_cases h : (jsSplit e ',').length = 3
    · simp [paintLoop, h, ih, List.takeWhile_cons, List.all_cons, paintOk]
    · simp [paintLoop, h, List.takeWhile_cons, List.all_cons, paintOk]

/-- C1 (amended): a `paint` message with a malformed entry appends the
well-formed prefix before the first malformed entry to the canvas log (not
zero entries), does not broadcast the batch, and reports exactly one
malformed-message error to the sender. -/
theorem paint_malformed_batch (s : ServerState) (m : InMsg)
    (hmt : m.messageType = "paint")
    (hbad : ¬ (jsSplit m.data ';').all paintOk = true) :
    handleMessage s m =
      some ({ s with canvasState :=
                s.canvasState ++ (jsSplit m.data ';').takeWhile paintOk },
            [Out.err m]) := by
  have hne1 : m.messageType ≠ "userAccepted" := by rw [hmt]; decide
  have hne2 : m.messageType ≠ "pong" := by rw [hmt]; decide
  unfold handleMessage
  rw [if_neg hne1, if_neg hne2, if_pos hmt, paintLoop_eq]
  simp [hbad]

/-- Witness for C1 at the batch `"1,2,red;3,4"` on the initial state. -/
theorem paint_malformed_batch_w :
    ¬ (jsSplit "1,2,red;3,4" ';').all paintOk = true ∧
    handleMessage initState ⟨"paint", "1,2,red;3,4"⟩ =
      some ({ initState with canvasState :=
                initState.canvasState ++
                  (jsSplit "1,2,red;3,4" ';').takeWhile paintOk },
            [Out.err ⟨"paint", "1,2,red;3,4"⟩]) :=
  ⟨by decide, paint_malformed_batch initState ⟨"paint", "1,2,red;3,4"⟩ rfl (by decide)⟩

/-- Counterexample to C1 as stated: the batch `"1,2,red;3,4"` has a malformed
second entry, yet the well-formed first entry is appended to the canvas log
(the log grows from `[]` to `["1,2,red"]`), so the rejection is not free of
partial application. -/
theorem paint_malformed_batch_cex :
    handleMessage initState ⟨"paint", "1,2,red;3,4"⟩ =
      some ({ initState with canvasState := ["1,2,red"] },
            [Out.err ⟨"paint", "1,2,red;3,4"⟩]) ∧
    ({ initState with canvasState := ["1,2,red"] } : ServerState).canvasState ≠
      initState.canvasState := by
  exact ⟨by decide, by decide⟩

/-- C5 (amended): an inbound message whose tag is none of `userAccepted`,
`pong`, `paint`, `updateColor` is silently ignored: the state is unchanged
and nothing — in particular no error report — is sent. -/
theorem unrecognized_tag_ignored (s : ServerState) (m : InMsg)
    (h1 : m.messageType ≠ "userAccepted") (h2 : m.messageType ≠ "pong")
    (h3 : m.messageType ≠ "paint") (h4 : m.messageType ≠ "updateColor") :
    handleMessage s m = some (s, []) := by
  unfold handleMessage
  rw [if_neg h1, if_neg h2, if_neg h3, if_neg h4]

/-- Witness for C5 at the tag `"bogus"` on the initial state. -/
theorem unrecognized_tag_ignored_w :
    ("bogus" : String) ≠ "userAccepted" ∧
    handleMessage initState ⟨"bogus", "x"⟩ = some (initState, []) :=
  ⟨by decide,
   unrecognized_tag_ignored initState ⟨"bogus", "x"⟩
     (by decide) (by decide) (by decide) (by decide)⟩

/-- Test for an error report among outbound messages. -/
def isErrOut : Out → Bool
  | Out.err _ => true
  | _ => false

/-- Counterexample to C5 as stated: a message with the unrecognized tag
`"bogus"` produces no outbound message at all — in particular no
malformed-input error is reported to the sender. -/
theorem unrecognized_tag_ignored_cex :
    handleMessage initState ⟨"bogus", "x"⟩ = some (initState, []) ∧
    (([] : List Out).all (fun o => !isErrOut o)) = true := by
  exact ⟨by decide, by decide⟩

/-- C4: a `ColorChange` (`updateColor`) whose identity is not held makes the
handler dereference the `undefined` result of `find` and throw — the
exception escapes the message handler and kills the process (modelled as
`none`) — whereas an unknown-identity `HandshakeReply` (`userAccepted`) is
reported to the sender non-fatally, as the claim demands for both. -/
theorem unknown_identity_crash :
    handleMessage initState ⟨"updateColor", "5,red"⟩ = none ∧
    handleMessage initState ⟨"userAccepted", "5,red"⟩ =
      some (initState, [Out.err ⟨"userAccepted", "5,red"⟩]) := by
  exact ⟨by decide, by decide⟩

/-- State after the first client connects to a fresh server. -/
def c7S1 : ServerState :=
  { recs := [[JSVal.num 1, JSVal.str "black"]], userList := [0],
    tempUserList := [0], arraysAliased := false, canvasState := [],
    userListStale := false }

/-- State after that client's handshake reply `(1, "#ff0000")`. -/
def c7S2 : ServerState :=
  { c7S1 with recs := [[JSVal.num 1, JSVal.str "#ff0000"]] }

/-- Test for a `paint` replay message to the sender. -/
def isPaintOut : Out → Bool
  | Out.send mt _ => mt = "paint"
  | _ => false

/-- C7 (amended): on a fresh server the connecting client is assigned
identity 1 and, after its handshake reply `(1, "#ff0000")`, receives the
user-list broadcast containing exactly `(1, "#ff0000")`; no `paint` replay is
sent because the replay is skipped entirely when the canvas log is empty. -/
theorem fresh_connect_scenario :
    step initState Ev.connect =
      some (c7S1, [Out.send "announceUUID" (some (JSVal.num 1))]) ∧
    handleMessage c7S1 ⟨"userAccepted", "1,#ff0000"⟩ =
      some (c7S2,
        [Out.bcast "announceConnectedUsers" (some (JSVal.str "1,#ff0000"))]) ∧
    authView c7S2 = [some [JSVal.num 1, JSVal.str "#ff0000"]] := by
  exact ⟨by decide, by decide, by decide⟩

/-- Counterexample to C7 as stated: in the fresh-server scenario the outbound
traffic of the handshake step is exactly the user-list broadcast — it
contains no `paint` message, empty or otherwise, so the client does not
receive an empty `paint` replay. -/
theorem fresh_connect_scenario_cex :
    handleMessage c7S1 ⟨"userAccepted", "1,#ff0000"⟩ =
      some (c7S2,
        [Out.bcast "announceConnectedUsers" (some (JSVal.str "1,#ff0000"))]) ∧
    ([Out.bcast "announceConnectedUsers"
        (some (JSVal.str "1,#ff0000"))].all (fun o => !isPaintOut o)) = true := by
  exact ⟨by decide, by decide⟩

theorem uInsert_perm (recs : List (List JSVal)) (x : Nat) :
    ∀ l : List Nat, (uInsert recs x l).Perm (x :: l)
  | [] => List.Perm.refl _
  | y :: ys => by
    unfold uInsert
    by_cases h : userLe recs x y = true
    · rw [if_pos h]
    · rw [if_neg h]
      exact (((uInsert_perm recs x ys).cons y).trans (List.Perm.swap x y ys))

theorem uSort_perm (recs : List (List JSVal)) :
    ∀ l : List Nat, (uSort recs l).Perm l
  | [] => List.Perm.refl _
  | x :: xs =>
    (uInsert_perm recs x (uSort recs xs)).trans ((uSort_perm recs xs).cons x)

theorem uSort_length (recs : List (List JSVal)) (l : List Nat) :
    (uSort recs l).length = l.length :=
  (uSort_perm recs l).length_eq

theorem userLe_total (recs : List (List JSVal)) (a b : Nat) :
    userLe recs a b = true ∨ userLe recs b a = true := by
  unfold userLe
  cases h1 : sKey recs a with
  | none => cases h2 : sKey recs b <;> simp
  | some x =>
    cases h2 : sKey recs b with
    | none => simp
    | some y => simpa using Int.le_total x y

theorem userLe_trans (recs : List (List JSVal)) (a b c : Nat)
    (hb : (sKey recs b).isSome)
    (hab : userLe recs a b = true) (hbc : userLe recs b c = true) :
    userLe recs a c = true := by
  unfold userLe at *
  cases h1 : sKey recs a with
  | none => rfl
  | some x =>
    cases h3 : sKey recs c with
    | none => rfl
    | some z =>
      cases h2 : sKey recs b with
      | none => rw [h2] at hb; simp at hb
      | some y =>
        rw [h1, h2] at hab
        rw [h2, h3] at hbc
        simp at hab hbc ⊢
        omega

theorem uInsert_sorted (recs : List (List JSVal)) (x : Nat) :
    ∀ l : List Nat, (∀ a ∈ l, (sKey recs a).isSome) →
    l.Pairwise (fun a b => userLe recs a b = true) →
    (uInsert recs x l).Pairwise (fun a b => userLe recs a b = true)
  | [], _, _ => by simp [uInsert]
  | y :: ys, hnum, hs => by
    unfold uInsert
    rcases List.pairwise_cons.mp hs with ⟨hy, hys⟩
    by_cases h : userLe recs x y = true
    · rw [if_pos h]
      refine List.pairwise_cons.mpr ⟨?_, hs⟩
      intro z hz
      rcases List.mem_cons.mp hz with rfl | hz'
      · exact h
      · exact userLe_trans recs x y z (hnum y (by simp)) h (hy z hz')
    · rw [if_neg h]
      refine List.pairwise_cons.mpr ⟨?_, ?_⟩
      · intro z hz
        have hz' := (uInsert_perm recs x ys).mem_iff.mp hz
        rcases List.mem_cons.mp hz' with h3 | hz2
        · subst h3
          rcases userLe_total recs z y with h' | h'
          · exact absurd h' h
          · exact h'
        · exact hy z hz2
      · exact uInsert_sorted recs x ys (fun a ha => hnum a (by simp [ha])) hys

theorem uSort_sorted (recs : List (List JSVal)) :
    ∀ l : List Nat, (∀ a ∈ l, (sKey recs a).isSome) →
    (uSort recs l).Pairwise (fun a b => userLe recs a b = true)
  | [], _ => by simp [uSort]
  | x :: xs, hnum => by
    unfold uSort
    refine uInsert_sorted recs x (uSort recs xs) ?_ ?_
    · intro a ha
      exact hnum a (by simp [(uSort_perm recs xs).mem_iff.mp ha])
    · exact uSort_sorted recs xs (fun a ha => hnum a (by simp [ha]))

theorem filter_sub_length {α : Type} (p q : α → Bool)
    (h : ∀ x, q x = true → p x = true) :
    ∀ l : List α, (l.filter q).length ≤ (l.filter p).length
  | [] => Nat.le_refl 0
  | a :: t => by
    by_cases hq : q a = true
    · rw [List.filter_cons_of_pos hq, List.filter_cons_of_pos (h a hq)]
      simpa using filter_sub_length p q h t
    · rw [List.filter_cons_of_neg (by simpa using hq)]
      by_cases hp : p a = true
      · rw [List.filter_cons_of_pos hp]
        exact Nat.le_succ_of_le (filter_sub_length p q h t)
      · rw [List.filter_cons_of_neg (by simpa using hp)]
        exact filter_sub_length p q h t

theorem filter_sub_length_lt {α : Type} (p q : α → Bool)
    (h : ∀ x, q x = true → p x = true) (x : α)
    (hpx : p x = true) (hqx : q x = false) :
    ∀ l : List α, x ∈ l → (l.filter q).length < (l.filter p).length
  | a :: t, hx => by
    rcases List.mem_cons.mp hx with rfl | hx'
    · rw [List.filter_cons_of_neg (by simp [hqx]), List.filter_cons_of_pos hpx]
      exact Nat.lt_succ_of_le (filter_sub_length p q h t)
    · by_cases hq : q a = true
      · rw [List.filter_cons_of_pos hq, List.filter_cons_of_pos (h a hq)]
        simpa using filter_sub_length_lt p q h x hpx hqx t hx'
      · rw [List.filter_cons_of_neg (by simpa using hq)]
        by_cases hp : p a = true
        · rw [List.filter_cons_of_pos hp]
          exact Nat.lt_succ_of_lt (filter_sub_length_lt p q h x hpx hqx t hx')
        · rw [List.filter_cons_of_neg (by simpa using hp)]
          exact filter_sub_length_lt p q h x hpx hqx t hx'

/-- Membership test used to count the identities at least `cand`. -/
def pGe (cand : Int) : Option Int → Bool
  | some m => decide (cand ≤ m)
  | none => false

theorem firstFreeAux_spec :
    ∀ (fuel : Nat) (cand : Int) (held : List (Option Int)),
    (held.filter (pGe cand)).length ≤ fuel →
    some (firstFreeAux fuel cand held) ∉ held ∧
    cand ≤ firstFreeAux fuel cand held ∧
    ∀ m : Int, cand ≤ m → m < firstFreeAux fuel cand held → some m ∈ held
  | 0, cand, held => by
    intro h
    have hnil : held.filter (pGe cand) = [] :=
      List.length_eq_zero.mp (Nat.le_zero.mp h)
    refine ⟨?_, le_refl cand, ?_⟩
    · intro hmem
      have := List.filter_eq_nil.mp hnil (some cand) hmem
      simp [pGe] at this
    · intro m h1 h2
      exact absurd h1 (by simp [firstFreeAux] at h2; omega)
  | fuel + 1, cand, held => by
    intro h
    unfold firstFreeAux
    by_cases hmem : some cand ∈ held
    · rw [if_pos hmem]
      have hlt : (held.filter (pGe (cand + 1))).length <
          (held.filter (pGe cand)).length := by
        refine filter_sub_length_lt (pGe cand) (pGe (cand + 1)) ?_
          (some cand) (by simp [pGe]) (by simp [pGe]) held hmem
        intro x hx
        cases x with
        | none => simp [pGe] at hx
        | some m => simp [pGe] at hx ⊢; omega
      have hfu : (held.filter (pGe (cand + 1))).length ≤ fuel := by omega
      obtain ⟨h1, h2, h3⟩ := firstFreeAux_spec fuel (cand + 1) held hfu
      refine ⟨h1, by omega, ?_⟩
      intro m hm1 hm2
      by_cases heq : m = cand
      · exact heq ▸ hmem
      · exact h3 m (by omega) hm2
    · rw [if_neg hmem]
      exact ⟨hmem, le_refl cand, fun m h1 h2 => absurd h1 (by omega)⟩

theorem generateUUID_spec (s : ServerState) :
    1 ≤ generateUUID s ∧ some (generateUUID s) ∉ authIds s ∧
    ∀ m : Int, 1 ≤ m → m < generateUUID s → some m ∈ authIds s := by
  have hlen : ((authIds s).filter (pGe 1)).length ≤ s.userList.length := by
    have h1 := List.length_filter_le (pGe 1) (authIds s)
    have h2 : (authIds s).length = s.userList.length := by
      simp [authIds]
    omega
  obtain ⟨h1, h2, h3⟩ := firstFreeAux_spec s.userList.length 1 (authIds s) hlen
  exact ⟨h2, h1, h3⟩

theorem recIdP_append (recs ext : List (List JSVal)) (a : Nat)
    (h : a < recs.length) : recIdP (recs ++ ext) a = recIdP recs a := by
  unfold recIdP
  rw [List.get?_append h]

theorem sKey_append (recs ext : List (List JSVal)) (a : Nat)
    (h : a < recs.length) : sKey (recs ++ ext) a = sKey recs a := by
  unfold sKey
  rw [List.get?_append h]

theorem recIdP_concat (recs : List (List JSVal)) (r : List JSVal) :
    recIdP (recs ++ [r]) recs.length = piV r.head? := by
  unfold recIdP
  rw [List.get?_concat_length]
  rfl

theorem sKey_concat (recs : List (List JSVal)) (r : List JSVal) :
    sKey (recs ++ [r]) recs.length = toNumV r.head? := by
  unfold sKey
  rw [List.get?_concat_length]
  rfl

theorem jsSetAt1_head (r : List JSVal) (v : JSVal) :
    (jsSetAt r 1 v).head? = r.head? ∨
    (r = [] ∧ (jsSetAt r 1 v).head? = some JSVal.undef) := by
  match r with
  | [] => exact Or.inr ⟨rfl, rfl⟩
  | c :: rest =>
    left
    unfold jsSetAt
    by_cases h : 1 < (c :: rest).length
    · rw [if_pos h]
      rfl
    · rw [if_neg h]
      rfl

theorem piV_jsSetAt1 (r : List JSVal) (v : JSVal) :
    piV (jsSetAt r 1 v).head? = piV r.head? := by
  rcases jsSetAt1_head r v with h | ⟨hr, h⟩
  · rw [h]
  · rw [h, hr]
    rfl

theorem toNumV_jsSetAt1 (r : List JSVal) (v : JSVal) :
    toNumV (jsSetAt r 1 v).head? = toNumV r.head? := by
  rcases jsSetAt1_head r v with h | ⟨hr, h⟩
  · rw [h]
  · rw [h, hr]
    rfl

theorem setColorAt_length (recs : List (List JSVal)) (a : Nat) (v : JSVal) :
    (setColorAt recs a v).length = recs.length := by
  unfold setColorAt
  cases h : recs.get? a with
  | none => rfl
  | some r => exact List.length_set recs a _

theorem setColorAt_get? (recs : List (List JSVal)) (a : Nat) (v : JSVal)
    (b : Nat) (hne : b ≠ a) :
    (setColorAt recs a v).get? b = recs.get? b := by
  unfold setColorAt
  cases h : recs.get? a with
  | none => rfl
  | some r => exact List.get?_set_ne _ recs (fun he => hne he.symm)

theorem setColorAt_recIdP (recs : List (List JSVal)) (a : Nat) (v : JSVal)
    (b : Nat) : recIdP (setColorAt recs a v) b = recIdP recs b := by
  by_cases hne : b = a
  · subst hne
    unfold setColorAt
    cases h : recs.get? b with
    | none => rfl
    | some r =>
      unfold recIdP
      rw [List.get?_set, if_pos rfl, h]
      simp [piV_jsSetAt1]
  · unfold recIdP
    rw [setColorAt_get? recs a v b hne]

theorem setColorAt_sKey (recs : List (List JSVal)) (a : Nat) (v : JSVal)
    (b : Nat) : sKey (setColorAt recs a v) b = sKey recs b := by
  by_cases hne : b = a
  · subst hne
    unfold setColorAt
    cases h : recs.get? b with
    | none => rfl
    | some r =>
      unfold sKey
      rw [List.get?_set, if_pos rfl, h]
      simp [toNumV_jsSetAt1]
  · unfold sKey
    rw [setColorAt_get? recs a v b hne]

/-- C6 (amended): `addUser` returns the smallest positive integer not held
(per `parseInt`) by any record of the authoritative list, creates the record
`[uuid, "black"]`, and pushes the same record onto both lists.  The
authoritative list grows by one entry — except when `userList` and
`tempUserList` alias one array (between a sweep commit and the next sweep
start), where the two pushes land in the same array and it grows by two. -/
theorem allocate_val (s : ServerState) : (addUser s).1 = generateUUID s := by
  cases hb : s.arraysAliased <;> simp [addUser, hb]

theorem allocate_spec (s : ServerState) :
    1 ≤ (addUser s).1 ∧
    some ((addUser s).1) ∉ authIds s ∧
    (∀ m : Int, 1 ≤ m → m < (addUser s).1 → some m ∈ authIds s) ∧
    (addUser s).2.recs =
      s.recs ++ [[JSVal.num ((addUser s).1), JSVal.str "black"]] ∧
    s.recs.length ∈ (addUser s).2.userList ∧
    s.recs.length ∈ (addUser s).2.tempUserList ∧
    recIdP (addUser s).2.recs s.recs.length = some ((addUser s).1) ∧
    (addUser s).2.userList.length =
      s.userList.length + (if s.arraysAliased then 2 else 1) ∧
    (addUser s).2.tempUserList =
      (if s.arraysAliased then (addUser s).2.userList
       else s.tempUserList ++ [s.recs.length]) := by
  obtain ⟨h1, h2, h3⟩ := generateUUID_spec s
  rw [allocate_val]
  refine ⟨h1, h2, h3, ?_, ?_, ?_, ?_, ?_, ?_⟩ <;>
    cases hb : s.arraysAliased <;> simp [addUser, hb]
  · exact (uSort_perm _ _).mem_iff.mpr (by simp)
  · exact (uSort_perm _ _).mem_iff.mpr (by simp)
  · exact (uSort_perm _ _).mem_iff.mpr (by simp)
  · rw [recIdP_concat]
    rfl
  · rw [recIdP_concat]
    rfl
  · rw [uSort_length]
    simp
  · rw [uSort_length]
    simp

/-- Reachable state in which `userList` and `tempUserList` alias one array:
the result of an empty sweep cycle on a fresh server. -/
def aliasedEmpty : ServerState :=
  { recs := [], userList := [], tempUserList := [],
    arraysAliased := true, canvasState := [], userListStale := false }

/-- Witness for C6: on the fresh aliased state, `addUser` returns identity 1
and the authoritative list grows by two entries. -/
theorem allocate_spec_w :
    (addUser aliasedEmpty).1 = 1 ∧
    (addUser aliasedEmpty).2.userList.length =
      aliasedEmpty.userList.length +
        (if aliasedEmpty.arraysAliased then 2 else 1) :=
  ⟨by decide, (allocate_spec aliasedEmpty).2.2.2.2.2.2.2.1⟩

/-- Counterexample to C6 as stated: the aliased state is reached by an empty
sweep cycle, and the one `addUser` call of the next connection then increases
the registry from zero records to two list entries (the same record pushed
twice into the one shared array), not by one. -/
theorem allocate_spec_cex :
    run initState [Ev.sweepStart, Ev.sweepEnd] =
      some (aliasedEmpty,
        [Out.bcast "ping" none, Out.bcast "announceConnectedUsers" none]) ∧
    (addUser aliasedEmpty).2.userList.length = 2 ∧
    aliasedEmpty.userList.length + 1 = 1 := by
  exact ⟨by decide, by decide, by decide⟩

/-- C3 (amended): the sweep commit replaces the authoritative list with the
provisional list sorted by identity (a permutation of the provisional
entries), but it does not clear the provisional list: after the in-place
`sort` both variables reference the same array, so the provisional list
equals the new authoritative list and any subsequent provisional push lands
in the authoritative list as well.  The provisional list is only cleared when
the next sweep starts. -/
theorem commit_swap (s : ServerState) :
    (sendKeepAliveEnd s).1.userList = uSort s.recs s.tempUserList ∧
    (authIds (sendKeepAliveEnd s).1).Perm (tempIds s) ∧
    (sendKeepAliveEnd s).1.tempUserList = (sendKeepAliveEnd s).1.userList ∧
    (sendKeepAliveEnd s).1.arraysAliased = true ∧
    (sendKeepAliveEnd s).1.userListStale = false ∧
    (∀ a : Nat, (pushTemp (sendKeepAliveEnd s).1 a).userList =
      (sendKeepAliveEnd s).1.userList ++ [a]) ∧
    (sendKeepAliveStart s).1.tempUserList = [] ∧
    (sendKeepAliveStart s).1.arraysAliased = false := by
  refine ⟨rfl, ?_, rfl, rfl, rfl, ?_, rfl, rfl⟩
  · exact (uSort_perm s.recs s.tempUserList).map (recIdP s.recs)
  · intro a
    unfold pushTemp
    rfl

/-- State after a sweep cycle that collected one liveness reply `"1,red"`. -/
def c3S : ServerState :=
  { recs := [[JSVal.str "1", JSVal.str "red"]], userList := [0],
    tempUserList := [0], arraysAliased := true, canvasState := [],
    userListStale := false }

/-- Counterexample to C3 as stated: after a sweep cycle that collected the
reply `"1,red"`, the provisional list is not empty — it is the very array
that became the authoritative list. -/
theorem commit_swap_cex :
    run initState [Ev.sweepStart, Ev.msg ⟨"pong", "1,red"⟩, Ev.sweepEnd] =
      some (c3S,
        [Out.bcast "ping" none,
         Out.bcast "announceConnectedUsers" (some (JSVal.str "1,red"))]) ∧
    c3S.tempUserList ≠ [] ∧
    c3S.tempUserList = c3S.userList := by
  exact ⟨by decide, by decide, by decide⟩

/-- C9 (amended): during a sweep, a well-formed `updateColor` whose identity
is found in the provisional list updates that record's color in place and
sends nothing (no user-list broadcast until the commit); the authoritative
address list and all identities are untouched, and the authoritative view is
unchanged provided the updated record is not also referenced from the
authoritative list — a record allocated during the sweep is shared by both
lists, and its color change is visible in the authoritative view at once. -/
theorem color_change_mid_sweep (s : ServerState) (d : String) (a : Nat)
    (hstale : s.userListStale = true)
    (hlen : (jsSplit d ',').length = 2)
    (hfind : s.tempUserList.find?
      (colorPred s.recs (parseIntStr ((jsSplit d ',').headD ""))) = some a) :
    handleMessage s ⟨"updateColor", d⟩ =
      some ({ s with recs := setColorAt s.recs a (jsIdx (jsSplit d ',') 1) },
            []) ∧
    ({ s with recs := setColorAt s.recs a (jsIdx (jsSplit d ',') 1)
       } : ServerState).userList = s.userList ∧
    authIds { s with recs := setColorAt s.recs a (jsIdx (jsSplit d ',') 1) } =
      authIds s ∧
    tempIds { s with recs := setColorAt s.recs a (jsIdx (jsSplit d ',') 1) } =
      tempIds s ∧
    (a ∉ s.userList →
      authView { s with recs := setColorAt s.recs a (jsIdx (jsSplit d ',') 1) }
        = authView s) := by
  refine ⟨?_, rfl, ?_, ?_, ?_⟩
  · unfold handleMessage
    rw [if_neg (by decide : ¬ ("updateColor" : String) = "userAccepted"),
        if_neg (by decide : ¬ ("updateColor" : String) = "pong"),
        if_neg (by decide : ¬ ("updateColor" : String) = "paint"),
        if_pos (rfl : ("updateColor" : String) = "updateColor"),
        if_pos hlen, hstale, if_pos rfl, hfind]
  · unfold authIds
    simp only
    exact List.map_congr_left (fun b _ => setColorAt_recIdP s.recs a _ b)
  · unfold tempIds
    simp only
    exact List.map_congr_left (fun b _ => setColorAt_recIdP s.recs a _ b)
  · intro ha
    unfold authView
    simp only
    refine List.map_congr_left (fun b hb => ?_)
    exact setColorAt_get? s.recs a _ b (fun he => ha (he ▸ hb))

/-- Mid-sweep state after a fresh connection: the new record is referenced
from both the authoritative and the provisional list. -/
def c9S : ServerState :=
  { recs := [[JSVal.num 1, JSVal.str "black"]], userList := [0],
    tempUserList := [0], arraysAliased := false, canvasState := [],
    userListStale := true }

/-- Witness for C9: in the mid-sweep state `c9S`, the update `"1,red"` is
found in the provisional list and handled without output. -/
theorem color_change_mid_sweep_w :
    c9S.userListStale = true ∧
    (jsSplit "1,red" ',').length = 2 ∧
    c9S.tempUserList.find?
      (colorPred c9S.recs (parseIntStr ((jsSplit "1,red" ',').headD ""))) =
      some 0 ∧
    handleMessage c9S ⟨"updateColor", "1,red"⟩ =
      some ({ c9S with
                recs := setColorAt c9S.recs 0 (jsIdx (jsSplit "1,red" ',') 1) },
            []) :=
  ⟨by decide, by decide, by decide,
   (color_change_mid_sweep c9S "1,red" 0 (by decide) (by decide)
     (by decide)).1⟩

/-- Counterexample to C9 as stated: `c9S` arises from a connection arriving
mid-sweep; the provisional color update `"1,red"` then changes the
authoritative view as well, because both lists reference the same record. -/
theorem color_change_mid_sweep_cex :
    run initState [Ev.sweepStart, Ev.connect] =
      some (c9S,
        [Out.bcast "ping" none,
         Out.send "announceUUID" (some (JSVal.num 1))]) ∧
    handleMessage c9S ⟨"updateColor", "1,red"⟩ =
      some ({ c9S with recs := [[JSVal.num 1, JSVal.str "red"]] }, []) ∧
    authView { c9S with recs := [[JSVal.num 1, JSVal.str "red"]] } ≠
      authView c9S := by
  exact ⟨by decide, by decide, by decide⟩

theorem splitChar_ne_nil (c : Char) : ∀ cs : List Char, splitChar c cs ≠ []
  | [] => by simp [splitChar]
  | x :: xs => by
    unfold splitChar
    cases h : splitChar c xs with
    | nil => by_cases hx : x = c <;> simp [hx]
    | cons y ys => by_cases hx : x = c <;> simp [hx]

theorem jsSplit_ne_nil (s : String) (c : Char) : jsSplit s c ≠ [] := by
  unfold jsSplit
  simp [splitChar_ne_nil]

theorem jsSetAt_zero_head (l : List JSVal) (v : JSVal) (h : l ≠ []) :
    (jsSetAt l 0 v).head? = some v := by
  cases l with
  | nil => exact absurd rfl h
  | cons x xs => simp [jsSetAt]

theorem map_recIdP_append (recs ext : List (List JSVal)) (l : List Nat)
    (h : ∀ a ∈ l, a < recs.length) :
    l.map (recIdP (recs ++ ext)) = l.map (recIdP recs) :=
  List.map_congr_left (fun a ha => recIdP_append recs ext a (h a ha))

theorem map_recIdP_setColor (recs : List (List JSVal)) (a : Nat) (v : JSVal)
    (l : List Nat) :
    l.map (recIdP (setColorAt recs a v)) = l.map (recIdP recs) :=
  List.map_congr_left (fun b _ => setColorAt_recIdP recs a v b)

theorem mem_append_bound {l1 l2 : List Nat} {n : Nat}
    (h1 : ∀ a ∈ l1, a < n) (h2 : ∀ a ∈ l2, a < n) :
    ∀ a ∈ l1 ++ l2, a < n := by
  intro a ha
  rcases List.mem_append.mp ha with h | h
  · exact h1 a h
  · exact h2 a h

theorem wf_addUser (s : ServerState) (hwf : wfSt s) : wfSt (addUser s).2 := by
  obtain ⟨hu, ht, hal⟩ := hwf
  by_cases hb : s.arraysAliased = true
  · unfold addUser wfSt
    simp only [hb, if_true, List.length_append, List.length_singleton]
    have hbound : ∀ a ∈ s.userList ++ [s.recs.length, s.recs.length],
        a < s.recs.length + 1 := by
      refine mem_append_bound (fun a h => ?_) (fun a h => ?_)
      · have := hu a h
        omega
      · simp only [List.mem_cons, List.mem_singleton, List.not_mem_nil,
          or_false] at h
        omega
    refine ⟨?_, ?_, by simp⟩
    · intro a ha
      exact hbound a ((uSort_perm _ _).mem_iff.mp ha)
    · intro a ha
      exact hbound a ((uSort_perm _ _).mem_iff.mp ha)
  · have hb' : s.arraysAliased = false := by
      revert hb
      cases s.arraysAliased <;> simp
    unfold addUser wfSt
    simp only [hb', Bool.false_eq_true, if_false, List.length_append,
      List.length_singleton]
    refine ⟨?_, ?_, ?_⟩
    · intro a ha
      refine mem_append_bound (fun b h => ?_) (fun b h => ?_) a
        ((uSort_perm _ _).mem_iff.mp ha)
      · have := hu b h
        omega
      · simp only [List.mem_singleton] at h
        omega
    · refine mem_append_bound (fun b h => ?_) (fun b h => ?_)
      · have := ht b h
        omega
      · simp only [List.mem_singleton] at h
        omega
    · intro h
      cases h

theorem wf_pushTemp (s : ServerState) (addr : Nat) (hwf : wfSt s)
    (haddr : addr < s.recs.length) : wfSt (pushTemp s addr) := by
  obtain ⟨hu, ht, hal⟩ := hwf
  unfold pushTemp
  by_cases hb : s.arraysAliased = true
  · rw [if_pos hb]
    exact ⟨mem_append_bound hu (by simpa using haddr),
           mem_append_bound ht (by simpa using haddr),
           fun _ => by rw [hal hb]⟩
  · rw [if_neg hb]
    exact ⟨hu, mem_append_bound ht (by simpa using haddr),
           fun hc => absurd hc hb⟩

theorem wf_extendRecs (s : ServerState) (ext : List (List JSVal))
    (hwf : wfSt s) : wfSt { s with recs := s.recs ++ ext } := by
  obtain ⟨hu, ht, hal⟩ := hwf
  refine ⟨?_, ?_, hal⟩ <;>
  · intro a ha
    simp only [List.length_append]
    first
    | exact Nat.lt_of_lt_of_le (hu a ha) (Nat.le_add_right _ _)
    | exact Nat.lt_of_lt_of_le (ht a ha) (Nat.le_add_right _ _)

theorem wf_setColor (s : ServerState) (a : Nat) (v : JSVal) (hwf : wfSt s) :
    wfSt { s with recs := setColorAt s.recs a v } := by
  obtain ⟨hu, ht, hal⟩ := hwf
  refine ⟨?_, ?_, hal⟩ <;>
  · intro b hb
    rw [setColorAt_length]
    first
    | exact hu b hb
    | exact ht b hb

theorem wf_handleMessage (s : ServerState) (m : InMsg)
    (p : ServerState × List Out) (hwf : wfSt s)
    (h : handleMessage s m = some p) : wfSt p.1 := by
  simp only [handleMessage] at h
  split at h
  · -- userAccepted: either a color update in place, or a non-fatal error
    split at h
    · injection h with h1
      subst h1
      exact wf_setColor s _ _ hwf
    · injection h with h1
      subst h1
      exact hwf
  · split at h
    · -- pong: a sentinel reply allocates first; both push one fresh record
      split at h
      · injection h with h1
        subst h1
        refine wf_pushTemp _ _ ?_ ?_
        · exact wf_extendRecs (addUser s).2 _ (wf_addUser s hwf)
        · simp
      · injection h with h1
        subst h1
        refine wf_pushTemp _ _ ?_ ?_
        · exact wf_extendRecs s _ hwf
        · simp
    · split at h
      · -- paint: only the canvas log changes
        split at h
        · injection h with h1
          subst h1
          exact ⟨hwf.1, hwf.2.1, hwf.2.2⟩
        · injection h with h1
          subst h1
          exact ⟨hwf.1, hwf.2.1, hwf.2.2⟩
      · split at h
        · -- updateColor: color update in place, crash, or field-count error
          split at h
          · split at h
            · split at h
              · injection h with h1
                subst h1
                exact wf_setColor s _ _ hwf
              · cases h
            · split at h
              · injection h with h1
                subst h1
                exact wf_setColor s _ _ hwf
              · cases h
          · injection h with h1
            subst h1
            exact hwf
        · injection h with h1
          subst h1
          exact hwf

theorem wf_step (s : ServerState) (e : Ev) (p : ServerState × List Out)
    (hwf : wfSt s) (h : step s e = some p) : wfSt p.1 := by
  cases e with
  | connect =>
    cases h
    exact wf_addUser s hwf
  | msg m => exact wf_handleMessage s m p hwf h
  | sweepStart =>
    cases h
    exact ⟨hwf.1, fun a ha => absurd ha (List.not_mem_nil a),
           fun hc => nomatch hc⟩
  | sweepEnd =>
    cases h
    obtain ⟨hu, ht, _⟩ := hwf
    refine ⟨?_, ?_, fun _ => rfl⟩ <;>
    · intro a ha
      exact ht a ((uSort_perm _ _).mem_iff.mp ha)

theorem wf_run (s : ServerState) (evs : List Ev)
    (q : ServerState × List Out) (hwf : wfSt s)
    (h : run s evs = some q) : wfSt q.1 := by
  induction evs generalizing s q with
  | nil =>
    unfold run at h
    cases h
    exact hwf
  | cons e es ih =>
    unfold run at h
    cases hs : step s e with
    | none =>
      simp only [hs] at h
      cases h
    | some p =>
      simp only [hs] at h
      cases hr : run p.1 es with
      | none =>
        simp only [hr] at h
        cases h
      | some q2 =>
        simp only [hr] at h
        injection h with h1
        subst h1
        exact ih p.1 q2 (wf_step s e p hwf hs) hr

theorem handle_preserves_authIds (s : ServerState) (m : InMsg)
    (p : ServerState × List Out) (hmt : m.messageType ≠ "pong")
    (h : handleMessage s m = some p) :
    authIds p.1 = authIds s ∧ p.1.userList = s.userList := by
  simp only [handleMessage] at h
  split at h
  · -- userAccepted: the pong branch is discharged by `hmt` during `split`
    split at h
    · injection h with h1
      subst h1
      exact ⟨map_recIdP_setColor _ _ _ _, rfl⟩
    · injection h with h1
      subst h1
      exact ⟨rfl, rfl⟩
  · split at h
    · -- paint: only the canvas changes
      split at h
      · injection h with h1
        subst h1
        exact ⟨rfl, rfl⟩
      · injection h with h1
        subst h1
        exact ⟨rfl, rfl⟩
    · split at h
      · -- updateColor
        split at h
        · split at h
          · split at h
            · injection h with h1
              subst h1
              exact ⟨map_recIdP_setColor _ _ _ _, rfl⟩
            · cases h
          · split at h
            · injection h with h1
              subst h1
              exact ⟨map_recIdP_setColor _ _ _ _, rfl⟩
            · cases h
        · injection h with h1
          subst h1
          exact ⟨rfl, rfl⟩
      · injection h with h1
        subst h1
        exact ⟨rfl, rfl⟩

theorem fields_head (d : String) :
    ((jsSplit d ',').map JSVal.str).head? =
      some (JSVal.str ((jsSplit d ',').headD "")) := by
  cases hj : jsSplit d ',' with
  | nil => exact absurd hj (jsSplit_ne_nil d ',')
  | cons f rest => rfl

theorem handle_pong_normal (s : ServerState) (d : String)
    (hns : piV ((jsSplit d ',').map JSVal.str).head? ≠ some (-1)) :
    handleMessage s ⟨"pong", d⟩ =
      some (pushTemp
        { s with recs := s.recs ++ [(jsSplit d ',').map JSVal.str] }
        s.recs.length, []) := by
  have hns2 : ¬ piV (Option.map JSVal.str (jsSplit d ',').head?) = some (-1) := by
    simpa using hns
  simp [handleMessage, hns2]

theorem handle_pong_sentinel (s : ServerState) (d : String)
    (hs : piV ((jsSplit d ',').map JSVal.str).head? = some (-1)) :
    handleMessage s ⟨"pong", d⟩ =
      some (pushTemp
        { (addUser s).2 with recs := (addUser s).2.recs ++
            [jsSetAt ((jsSplit d ',').map JSVal.str) 0
              (JSVal.num (addUser s).1)] }
        (addUser s).2.recs.length,
        [Out.send "announceUUID" (some (JSVal.num (addUser s).1))]) := by
  have hs2 : piV (Option.map JSVal.str (jsSplit d ',').head?) = some (-1) := by
    simpa using hs
  simp [handleMessage, hs2]

theorem tempIds_pushTemp (s : ServerState) (addr : Nat) :
    tempIds (pushTemp s addr) = tempIds s ++ [recIdP s.recs addr] := by
  unfold pushTemp tempIds
  by_cases hb : s.arraysAliased = true
  · rw [if_pos hb]
    simp
  · rw [if_neg hb]
    simp

theorem tempIds_extendRecs (s : ServerState) (ext : List (List JSVal))
    (hwf : ∀ a ∈ s.tempUserList, a < s.recs.length) :
    tempIds { s with recs := s.recs ++ ext } = tempIds s :=
  map_recIdP_append s.recs ext s.tempUserList hwf

theorem tempIds_addUser (s : ServerState) (hwf : wfSt s) :
    some ((addUser s).1) ∈ tempIds (addUser s).2 ∧
    ∀ v ∈ tempIds s, v ∈ tempIds (addUser s).2 := by
  obtain ⟨hu, ht, hal⟩ := hwf
  have hnew : recIdP ((addUser s).2.recs) s.recs.length = some ((addUser s).1) := by
    obtain ⟨_, _, _, hrecs, _, _, hid, _⟩ := allocate_spec s
    exact hid
  by_cases hb : s.arraysAliased = true
  · have htl : (addUser s).2.tempUserList =
        uSort (addUser s).2.recs (s.userList ++ [s.recs.length, s.recs.length]) := by
      simp [addUser, allocate_val, hb]
    have hrecs2 : (addUser s).2.recs =
        s.recs ++ [[JSVal.num ((addUser s).1), JSVal.str "black"]] :=
      (allocate_spec s).2.2.2.1
    constructor
    · refine List.mem_map.mpr ⟨s.recs.length, ?_, hnew⟩
      rw [htl]
      exact (uSort_perm _ _).mem_iff.mpr (by simp)
    · intro v hv
      obtain ⟨a, ha, hva⟩ := List.mem_map.mp hv
      refine List.mem_map.mpr ⟨a, ?_, ?_⟩
      · rw [htl]
        refine (uSort_perm _ _).mem_iff.mpr ?_
        have hau : a ∈ s.userList := by
          rw [hal hb]
          exact ha
        exact List.mem_append.mpr (Or.inl hau)
      · rw [hrecs2, recIdP_append s.recs _ a (ht a ha)]
        exact hva
  · have htl : (addUser s).2.tempUserList =
        s.tempUserList ++ [s.recs.length] := by
      have hb' : s.arraysAliased = false := by
        revert hb
        cases s.arraysAliased <;> simp
      simp [addUser, hb']
    have hrecs2 : (addUser s).2.recs =
        s.recs ++ [[JSVal.num ((addUser s).1), JSVal.str "black"]] :=
      (allocate_spec s).2.2.2.1
    constructor
    · refine List.mem_map.mpr ⟨s.recs.length, ?_, hnew⟩
      rw [htl]
      simp
    · intro v hv
      obtain ⟨a, ha, hva⟩ := List.mem_map.mp hv
      refine List.mem_map.mpr ⟨a, ?_, ?_⟩
      · rw [htl]
        exact List.mem_append.mpr (Or.inl ha)
      · rw [hrecs2, recIdP_append s.recs _ a (ht a ha)]
        exact hva

theorem step_temp_mono (s : ServerState) (e : Ev)
    (p : ServerState × List Out) (hwf : wfSt s) (hne : e ≠ Ev.sweepStart)
    (h : step s e = some p) : ∀ v ∈ tempIds s, v ∈ tempIds p.1 := by
  cases e with
  | connect =>
    cases h
    exact (tempIds_addUser s hwf).2
  | sweepStart => exact absurd rfl hne
  | sweepEnd =>
    cases h
    intro v hv
    obtain ⟨a, ha, hva⟩ := List.mem_map.mp hv
    exact List.mem_map.mpr ⟨a, (uSort_perm _ _).mem_iff.mpr ha, hva⟩
  | msg m =>
    simp only [step, handleMessage] at h
    split at h
    · split at h
      · injection h with h1
        subst h1
        intro v hv
        unfold tempIds at hv ⊢
        rw [map_recIdP_setColor]
        exact hv
      · injection h with h1
        subst h1
        exact fun v hv => hv
    · split at h
      · -- pong
        split at h
        · -- sentinel: allocation plus push of the reply record
          injection h with h1
          subst h1
          intro v hv
          rw [tempIds_pushTemp]
          refine List.mem_append.mpr (Or.inl ?_)
          rw [tempIds_extendRecs _ _ (wf_addUser s hwf).2.1]
          exact (tempIds_addUser s hwf).2 v hv
        · injection h with h1
          subst h1
          intro v hv
          rw [tempIds_pushTemp]
          refine List.mem_append.mpr (Or.inl ?_)
          rw [tempIds_extendRecs _ _ hwf.2.1]
          exact hv
      · split at h
        · -- paint
          split at h
          · injection h with h1
            subst h1
            exact fun v hv => hv
          · injection h with h1
            subst h1
            exact fun v hv => hv
        · split at h
          · -- updateColor
            split at h
            · split at h
              · split at h
                · injection h with h1
                  subst h1
                  intro v hv
                  unfold tempIds at hv ⊢
                  rw [map_recIdP_setColor]
                  exact hv
                · cases h
              · split at h
                · injection h with h1
                  subst h1
                  intro v hv
                  unfold tempIds at hv ⊢
                  rw [map_recIdP_setColor]
                  exact hv
                · cases h
            · injection h with h1
              subst h1
              exact fun v hv => hv
          · injection h with h1
            subst h1
            exact fun v hv => hv

theorem run_temp_mono (evs : List Ev) : ∀ (s : ServerState)
    (q : ServerState × List Out), wfSt s →
    (∀ e ∈ evs, e ≠ Ev.sweepStart) → run s evs = some q →
    ∀ v ∈ tempIds s, v ∈ tempIds q.1 := by
  induction evs with
  | nil =>
    intro s q _ _ h
    unfold run at h
    cases h
    exact fun v hv => hv
  | cons e es ih =>
    intro s q hwf hne h
    unfold run at h
    cases hs : step s e with
    | none =>
      simp only [hs] at h
      cases h
    | some p =>
      simp only [hs] at h
      cases hr : run p.1 es with
      | none =>
        simp only [hr] at h
        cases h
      | some q2 =>
        simp only [hr] at h
        injection h with h1
        subst h1
        intro v hv
        refine ih p.1 q2 (wf_step s e p hwf hs)
          (fun e2 he2 => hne e2 (by simp [he2])) hr v ?_
        exact step_temp_mono s e p hwf (hne e (by simp)) hs v hv

/-- C10: a user allocated while a sweep is in progress — by a fresh
connection (which dispatches to `addUser`) or by a liveness reply carrying
the unassigned sentinel `-1` — is inserted into the provisional list at
allocation time; provisional identities survive any further events short of
a new sweep start, and the sweep commit carries every provisional identity
into the authoritative list, even though that connection never answered the
probe. -/
theorem midsweep_alloc_survives (s : ServerState) :
    (step s Ev.connect =
      some ((addUser s).2,
        [Out.send "announceUUID" (some (JSVal.num (addUser s).1))])) ∧
    (wfSt s → some ((addUser s).1) ∈ tempIds (addUser s).2) ∧
    (∀ (d : String) (p : ServerState × List Out),
      piV ((jsSplit d ',').map JSVal.str).head? = some (-1) →
      handleMessage s ⟨"pong", d⟩ = some p →
      some ((addUser s).1) ∈ tempIds p.1 ∧
      Out.send "announceUUID" (some (JSVal.num (addUser s).1)) ∈ p.2) ∧
    (∀ (evs : List Ev) (q : ServerState × List Out), wfSt s →
      (∀ e ∈ evs, e ≠ Ev.sweepStart) → run s evs = some q →
      ∀ v ∈ tempIds s, v ∈ tempIds q.1) ∧
    (∀ v ∈ tempIds s, v ∈ authIds (sendKeepAliveEnd s).1) := by
  refine ⟨rfl, fun hwf => (tempIds_addUser s hwf).1, ?_, ?_, ?_⟩
  · intro d p hsen h
    rw [handle_pong_sentinel s d hsen] at h
    injection h with h1
    subst h1
    constructor
    · rw [tempIds_pushTemp]
      refine List.mem_append.mpr (Or.inr ?_)
      have hne : (jsSplit d ',').map JSVal.str ≠ [] := by
        intro hc
        exact jsSplit_ne_nil d ',' (List.map_eq_nil.mp hc)
      have : recIdP ((addUser s).2.recs ++
          [jsSetAt ((jsSplit d ',').map JSVal.str) 0 (JSVal.num (addUser s).1)])
          (addUser s).2.recs.length =
          some ((addUser s).1) := by
        rw [recIdP_concat, jsSetAt_zero_head _ _ hne]
        rfl
      simp only [List.mem_singleton]
      exact this.symm
    · simp
  · intro evs q hwf hne h
    exact run_temp_mono evs s q hwf hne h
  · intro v hv
    obtain ⟨a, ha, hva⟩ := List.mem_map.mp hv
    exact List.mem_map.mpr ⟨a, (uSort_perm _ _).mem_iff.mpr ha, hva⟩

/-- Witness for C10: in the mid-sweep state `c9S`, a fresh allocation enters
the provisional list; a sentinel liveness reply allocates identity 2 and its
provisional identity together with identity 1 survives the commit. -/
theorem midsweep_alloc_survives_w :
    some ((addUser c9S).1) ∈ tempIds (addUser c9S).2 ∧
    (∀ v ∈ tempIds c9S, v ∈ authIds (sendKeepAliveEnd c9S).1) ∧
    wfSt c9S :=
  ⟨(midsweep_alloc_survives c9S).2.1 (by decide),
   (midsweep_alloc_survives c9S).2.2.2.2,
   by decide⟩

/-- C8 (amended): operations other than liveness replies leave the
authoritative identity list unchanged; an allocation in a non-aliased state
preserves uniqueness of authoritative identities (the fresh identity is not
held); the sweep start leaves the authoritative list untouched; and a sweep
commit yields unique authoritative identities whenever the provisional
identities are pairwise distinct — which can fail, e.g. after a sentinel
liveness reply, which files two provisional records under the same fresh
identity. -/
theorem unique_auth_ids (s : ServerState) :
    (∀ (m : InMsg) (p : ServerState × List Out), m.messageType ≠ "pong" →
      handleMessage s m = some p → authIds p.1 = authIds s) ∧
    (wfSt s → s.arraysAliased = false → (authIds s).Nodup →
      (authIds (addUser s).2).Nodup) ∧
    ((tempIds s).Nodup → (authIds (sendKeepAliveEnd s).1).Nodup) ∧
    authIds (sendKeepAliveStart s).1 = authIds s := by
  refine ⟨?_, ?_, ?_, rfl⟩
  · intro m p hmt h
    exact (handle_preserves_authIds s m p hmt h).1
  · intro hwf hb hnd
    have hperm : (authIds (addUser s).2).Perm
        (authIds s ++ [some ((addUser s).1)]) := by
      have hlist : (addUser s).2.userList =
          uSort (addUser s).2.recs (s.userList ++ [s.recs.length]) := by
        simp [addUser, allocate_val, hb]
      have hrecs2 : (addUser s).2.recs =
          s.recs ++ [[JSVal.num ((addUser s).1), JSVal.str "black"]] :=
        (allocate_spec s).2.2.2.1
      unfold authIds
      rw [hlist]
      refine ((uSort_perm _ _).map _).trans ?_
      rw [List.map_append]
      have h1 : s.userList.map (recIdP (addUser s).2.recs) =
          s.userList.map (recIdP s.recs) := by
        rw [hrecs2]
        exact map_recIdP_append s.recs _ s.userList hwf.1
      have h2 : [s.recs.length].map (recIdP (addUser s).2.recs) =
          [some ((addUser s).1)] := by
        simp only [List.map_cons, List.map_nil]
        rw [hrecs2, recIdP_concat]
        rfl
      rw [h1, h2]
    refine hperm.nodup_iff.mpr ?_
    have hperm2 : (authIds s ++ [some ((addUser s).1)]).Perm
        (some ((addUser s).1) :: authIds s) := List.perm_append_comm
    refine hperm2.nodup_iff.mpr ?_
    exact List.nodup_cons.mpr ⟨(allocate_spec s).2.1, hnd⟩
  · intro hnd
    have hperm : (authIds (sendKeepAliveEnd s).1).Perm (tempIds s) :=
      (uSort_perm s.recs s.tempUserList).map (recIdP s.recs)
    exact hperm.nodup_iff.mpr hnd

/-- Witness for C8 at the one-user state `c7S1`: allocation and commit both
preserve uniqueness there. -/
theorem unique_auth_ids_w :
    (authIds (addUser c7S1).2).Nodup ∧
    (authIds (sendKeepAliveEnd c7S1).1).Nodup :=
  ⟨(unique_auth_ids c7S1).2.1 (by decide) (by decide) (by decide),
   (unique_auth_ids c7S1).2.2.1 (by decide)⟩

/-- State after a sweep cycle whose only event is the sentinel liveness reply
`"-1,red"`: the registry holds two records with identity 1. -/
def c8S : ServerState :=
  { recs := [[JSVal.num 1, JSVal.str "black"], [JSVal.num 1, JSVal.str "red"]],
    userList := [0, 1], tempUserList := [0, 1], arraysAliased := true,
    canvasState := [], userListStale := false }

/-- Counterexample to C8 as stated: a sweep cycle containing one liveness
reply with the unassigned sentinel ends with two authoritative records
carrying identity 1 (`addUser` files `[1,"black"]` and the reply record
`[1,"red"]` is filed as well), so the authoritative set is not
duplicate-free after the commit. -/
theorem unique_auth_ids_cex :
    run initState
      [Ev.sweepStart, Ev.msg ⟨"pong", "-1,red"⟩, Ev.sweepEnd] =
      some (c8S,
        [Out.bcast "ping" none,
         Out.send "announceUUID" (some (JSVal.num 1)),
         Out.bcast "announceConnectedUsers"
           (some (JSVal.str "1,black;1,red"))]) ∧
    ¬ (authIds c8S).Nodup := by
  exact ⟨by decide, by decide⟩

/-- Liveness-reply event carrying payload `d`. -/
def pongEv (d : String) : Ev :=
  Ev.msg ⟨"pong", d⟩

/-- Identity carried by a liveness reply, as the server parses it
(`parseInt` of the first comma-separated field). -/
def replyId (d : String) : Option Int :=
  parseIntStr ((jsSplit d ',').headD "")

/-- Sort key of the reply's record (`ToNumber` of its first field). -/
def replyKey (d : String) : Option Int :=
  toNumberStr ((jsSplit d ',').headD "")

theorem piV_fields (d : String) :
    piV ((jsSplit d ',').map JSVal.str).head? = replyId d := by
  rw [fields_head]
  rfl

theorem toNumV_fields (d : String) :
    toNumV ((jsSplit d ',').map JSVal.str).head? = replyKey d := by
  rw [fields_head]
  rfl

theorem pong_step (t : ServerState) (d : String)
    (hrep : replyId d ≠ some (-1)) (hal : t.arraysAliased = false) :
    handleMessage t ⟨"pong", d⟩ =
      some ({ t with recs := t.recs ++ [(jsSplit d ',').map JSVal.str],
                     tempUserList := t.tempUserList ++ [t.recs.length] },
            []) := by
  rw [handle_pong_normal t d (by rw [piV_fields]; exact hrep)]
  unfold pushTemp
  simp [hal]

theorem filterMap_eq_map_getD {α β : Type} (f : α → Option β) (d : β) :
    ∀ l : List α, (∀ a ∈ l, (f a).isSome) →
    l.filterMap f = l.map (fun a => (f a).getD d)
  | [], _ => rfl
  | a :: t, h => by
    cases hfa : f a with
    | none =>
      have := h a (by simp)
      rw [hfa] at this
      cases this
    | some b =>
      have ht2 := filterMap_eq_map_getD f d t (fun x hx => h x (by simp [hx]))
      simp [List.filterMap_cons, hfa, ht2]

theorem run_append (l1 l2 : List Ev) : ∀ s : ServerState,
    run s (l1 ++ l2) =
      match run s l1 with
      | none => none
      | some p =>
        match run p.1 l2 with
        | none => none
        | some q => some (q.1, p.2 ++ q.2) := by
  induction l1 with
  | nil =>
    intro s
    simp only [List.nil_append, run]
    cases h2 : run s l2 with
    | none => rfl
    | some q => simp
  | cons e es ih =>
    intro s
    simp only [List.cons_append, run]
    cases hs : step s e with
    | none => rfl
    | some p =>
      dsimp only
      rw [show run p.1 (es.append l2) = run p.1 (es ++ l2) from rfl, ih p.1]
      cases h1 : run p.1 es with
      | none => rfl
      | some q1 =>
        dsimp only
        cases h2 : run q1.1 l2 with
        | none => rfl
        | some q2 => simp

theorem pong_run_props (datas : List String) : ∀ t : ServerState,
    (∀ d ∈ datas, replyId d ≠ some (-1)) →
    (∀ a ∈ t.userList, a < t.recs.length) →
    (∀ a ∈ t.tempUserList, a < t.recs.length) →
    t.arraysAliased = false →
    ∃ T : ServerState,
      run t (datas.map pongEv) = some (T, []) ∧
      T.userList = t.userList ∧
      T.arraysAliased = false ∧
      T.userListStale = t.userListStale ∧
      (∀ a ∈ T.userList, a < T.recs.length) ∧
      (∀ a ∈ T.tempUserList, a < T.recs.length) ∧
      authIds T = authIds t ∧
      tempIds T = tempIds t ++ datas.map replyId ∧
      T.tempUserList.map (sKey T.recs) =
        t.tempUserList.map (sKey t.recs) ++ datas.map replyKey := by
  induction datas with
  | nil =>
    intro t _ hu ht hal
    exact ⟨t, by simp [run], rfl, hal, rfl, hu, ht, rfl, by simp [tempIds],
           by simp⟩
  | cons d ds ih =>
    intro t hrep hu ht hal
    have hlen : ∀ ext : List (List JSVal),
        t.recs.length ≤ (t.recs ++ ext).length := by
      intro ext
      simp [List.length_append]
    obtain ⟨T, hrunT, hTu, hTal, hTst, hTub, hTtb, hTauth, hTtemp, hTkey⟩ :=
      ih { t with recs := t.recs ++ [(jsSplit d ',').map JSVal.str],
                  tempUserList := t.tempUserList ++ [t.recs.length] }
        (fun x hx => hrep x (by simp [hx]))
        (fun a ha => Nat.lt_of_lt_of_le (hu a ha) (hlen _))
        (by
          refine mem_append_bound (fun a ha => ?_) (fun a ha => ?_)
          · exact Nat.lt_of_lt_of_le (ht a ha) (hlen _)
          · simp only [List.mem_singleton] at ha
            subst ha
            simp)
        hal
    refine ⟨T, ?_, by rw [hTu], hTal, hTst, hTub, hTtb, ?_, ?_, ?_⟩
    · simp only [List.map_cons, run, step, pongEv]
      rw [pong_step t d (hrep d (by simp)) hal]
      simp only [hrunT, List.nil_append]
    · rw [hTauth]
      unfold authIds
      simp only
      exact map_recIdP_append t.recs _ t.userList hu
    · rw [hTtemp]
      unfold tempIds
      simp only [List.map_append]
      rw [map_recIdP_append t.recs _ t.tempUserList ht]
      have hnewid : [t.recs.length].map
          (recIdP (t.recs ++ [(jsSplit d ',').map JSVal.str])) =
          [replyId d] := by
        simp only [List.map_cons, List.map_nil]
        rw [recIdP_concat]
        rw [show piV ((jsSplit d ',').map JSVal.str).head? = replyId d from
          piV_fields d]
      rw [hnewid, List.append_assoc]
      rfl
    · rw [hTkey]
      simp only [List.map_append]
      have h1 : t.tempUserList.map
          (sKey (t.recs ++ [(jsSplit d ',').map JSVal.str])) =
          t.tempUserList.map (sKey t.recs) :=
        List.map_congr_left (fun a ha => sKey_append t.recs _ a (ht a ha))
      have h2 : [t.recs.length].map
          (sKey (t.recs ++ [(jsSplit d ',').map JSVal.str])) =
          [replyKey d] := by
        simp only [List.map_cons, List.map_nil]
        rw [sKey_concat, toNumV_fields]
      rw [h1, h2, List.append_assoc]
      rfl

/-- C2 (amended): after a full sweep cycle — probe broadcast, grace period,
commit — in which every mid-sweep event is a well-formed non-sentinel
liveness reply (no identity is allocated mid-sweep; see C10 for the
allocation case the original claim excludes), the committed authoritative
list holds exactly the identities that replied, sorted ascending, and the
commit broadcasts exactly that list. -/
theorem sweep_cycle_replies (s : ServerState) (datas : List String)
    (q : ServerState × List Out) (hwf : wfSt s)
    (hrep : ∀ d ∈ datas,
      replyId d ≠ some (-1) ∧ replyKey d = replyId d ∧ (replyId d).isSome)
    (hrun : run s (Ev.sweepStart :: (datas.map pongEv ++ [Ev.sweepEnd])) =
      some q) :
    (authIds q.1).Perm (datas.map replyId) ∧
    List.Sorted (· ≤ ·) (q.1.userList.filterMap (recIdP q.1.recs)) ∧
    q.2 = [broadcastOut "ping" none,
           broadcastOut "announceConnectedUsers"
             (some (JSVal.str (joinUsers q.1.recs q.1.userList)))] := by
  obtain ⟨T, hrunT, hTu, hTal, hTst, hTub, hTtb, hTauth, hTtemp, hTkey⟩ :=
    pong_run_props datas
      { s with userListStale := true, tempUserList := [],
               arraysAliased := false }
      (fun d hd => (hrep d hd).1) hwf.1
      (fun a ha => absurd ha (List.not_mem_nil a)) rfl
  have hTtemp2 : tempIds T = datas.map replyId := by
    rw [hTtemp]
    rfl
  have hTkey2 : T.tempUserList.map (sKey T.recs) = datas.map replyKey := by
    rw [hTkey]
    rfl
  clear hTtemp hTkey
  simp only [run, step, sendKeepAliveStart] at hrun
  rw [run_append] at hrun
  rw [hrunT] at hrun
  dsimp only at hrun
  have hend : run T [Ev.sweepEnd] =
      some ((sendKeepAliveEnd T).1, (sendKeepAliveEnd T).2 ++ []) := rfl
  rw [hend] at hrun
  dsimp only at hrun
  simp only [List.nil_append, List.append_nil] at hrun
  injection hrun with hq
  subst hq
  have hkeys : ∀ a ∈ T.tempUserList, (sKey T.recs a).isSome := by
    intro a ha
    have hmem : sKey T.recs a ∈ T.tempUserList.map (sKey T.recs) :=
      List.mem_map_of_mem _ ha
    rw [hTkey2] at hmem
    obtain ⟨d, hd, heq⟩ := List.mem_map.mp hmem
    rw [← heq, (hrep d hd).2.1]
    exact (hrep d hd).2.2
  have hagree : ∀ a ∈ T.tempUserList, recIdP T.recs a = sKey T.recs a := by
    apply List.map_eq_map_iff.mp
    have h1 : List.map (recIdP T.recs) T.tempUserList =
        List.map replyId datas := hTtemp2
    rw [h1, hTkey2]
    exact List.map_congr_left (fun d hd => ((hrep d hd).2.1).symm)
  have hIdSome : ∀ a ∈ T.tempUserList, (recIdP T.recs a).isSome := by
    intro a ha
    rw [hagree a ha]
    exact hkeys a ha
  refine ⟨?_, ?_, ?_⟩
  · have hp : (authIds (sendKeepAliveEnd T).1).Perm (tempIds T) :=
      (uSort_perm T.recs T.tempUserList).map (recIdP T.recs)
    rw [hTtemp2] at hp
    exact hp
  · have hmemSort : ∀ a ∈ uSort T.recs T.tempUserList, a ∈ T.tempUserList :=
      fun a ha => (uSort_perm T.recs T.tempUserList).mem_iff.mp ha
    have hfm : ((sendKeepAliveEnd T).1.userList).filterMap
        (recIdP (sendKeepAliveEnd T).1.recs) =
        (uSort T.recs T.tempUserList).map
          (fun a => (recIdP T.recs a).getD 0) :=
      filterMap_eq_map_getD _ 0 _
        (fun a ha => hIdSome a (hmemSort a ha))
    rw [hfm]
    refine List.pairwise_map.mpr ?_
    have hsorted := uSort_sorted T.recs T.tempUserList hkeys
    refine hsorted.imp_of_mem ?_
    intro a b ha hb hle
    have ha' := hmemSort a ha
    have hb' := hmemSort b hb
    obtain ⟨ka, hka⟩ := Option.isSome_iff_exists.mp (hkeys a ha')
    obtain ⟨kb, hkb⟩ := Option.isSome_iff_exists.mp (hkeys b hb')
    unfold userLe at hle
    rw [hka, hkb] at hle
    simp only [decide_eq_true_eq] at hle
    rw [hagree a ha', hagree b hb', hka, hkb]
    simpa using hle
  · rfl

/-- State after a sweep cycle with replies `"2,red"` and `"1,blue"`. -/
def c2S : ServerState :=
  { recs := [[JSVal.str "2", JSVal.str "red"], [JSVal.str "1", JSVal.str "blue"]],
    userList := [1, 0], tempUserList := [1, 0], arraysAliased := true,
    canvasState := [], userListStale := false }

/-- Witness for C2: a cycle collecting replies `"2,red"` and `"1,blue"`
commits the identity list `[1, 2]` (sorted) and broadcasts `1,blue;2,red`. -/
theorem sweep_cycle_replies_w :
    (authIds c2S).Perm (["2,red", "1,blue"].map replyId) ∧
    List.Sorted (· ≤ ·) (c2S.userList.filterMap (recIdP c2S.recs)) ∧
    wfSt initState :=
  ⟨((sweep_cycle_replies initState ["2,red", "1,blue"]
      (c2S,
        [broadcastOut "ping" none,
         broadcastOut "announceConnectedUsers"
           (some (JSVal.str (joinUsers c2S.recs c2S.userList)))])
      (by decide) (by decide) (by decide)).1),
   ((sweep_cycle_replies initState ["2,red", "1,blue"]
      (c2S,
        [broadcastOut "ping" none,
         broadcastOut "announceConnectedUsers"
           (some (JSVal.str (joinUsers c2S.recs c2S.userList)))])
      (by decide) (by decide) (by decide)).2.1),
   by decide⟩

/-- Test for a liveness-reply event. -/
def isPongEv : Ev → Bool
  | Ev.msg m => m.messageType = "pong"
  | _ => false

/-- State after a sweep cycle whose only mid-sweep event is a fresh
connection. -/
def c2CexS : ServerState :=
  { recs := [[JSVal.num 1, JSVal.str "black"]], userList := [0],
    tempUserList := [0], arraysAliased := true, canvasState := [],
    userListStale := false }

/-- Counterexample to C2 as stated: a sweep cycle in which the only mid-sweep
event is a new connection (no liveness reply at all) still commits and
broadcasts a non-empty user list — identity 1 never replied to the probe, yet
it is in the broadcast list, so the list does not contain exactly the
identities that replied. -/
theorem sweep_cycle_replies_cex :
    run initState [Ev.sweepStart, Ev.connect, Ev.sweepEnd] =
      some (c2CexS,
        [Out.bcast "ping" none,
         Out.send "announceUUID" (some (JSVal.num 1)),
         Out.bcast "announceConnectedUsers" (some (JSVal.str "1,black"))]) ∧
    ([Ev.sweepStart, Ev.connect, Ev.sweepEnd].all
      (fun e => !isPongEv e)) = true ∧
    authIds c2CexS ≠ [] := by
  exact ⟨by decide, by decide, by decide⟩

end PixelPaint
